import Mathlib

/-!
Verification development for the Kona optimization kernel.

The numerical code is embedded shallowly: vectors are finite lists of
exact rationals (an exact-arithmetic model of the float vectors), the
stateful Python classes become explicit state records, and every method
becomes a pure Lean function translated from the corresponding source
file.  External collaborators that are not part of the repository
sources (the base vector class, `kona.linalg.solvers.util`) are modelled
from the specification and marked as such in their doc comments.
-/

namespace KonaSpec

/-- A vector: a finite list of exact scalars.  Modelled from the spec:
the external vector abstraction (an opaque handle supporting `equals`,
`plus`, `minus`, `times`, `divide_by`, `axpby`, `inner`, `norm2`); the
concrete user vector class is not under the sources. -/
abbrev Vec := List ℚ

/-- Modelled from the spec: `inner(vector) -> float`, the Euclidean
inner product of two vectors. -/
def vecInner (x y : Vec) : ℚ :=
  (List.zipWith (fun a b => a * b) x y).sum

/-- Modelled from the spec: `times(scalar)`, elementwise scaling. -/
def vecScale (a : ℚ) (x : Vec) : Vec :=
  x.map (fun t => a * t)

/-- Modelled from the spec: `axpby(a, x, b, y)`, the linear combination
`a*x + b*y` of two vectors. -/
def vecAxpby (a : ℚ) (x : Vec) (b : ℚ) (y : Vec) : Vec :=
  List.zipWith (fun xi yi => a * xi + b * yi) x y

/-- Modelled from the spec: `plus`, elementwise vector addition. -/
def vecPlus (x y : Vec) : Vec :=
  List.zipWith (fun a b => a + b) x y

/-- Modelled from the spec: `minus`, elementwise vector subtraction. -/
def vecMinus (x y : Vec) : Vec :=
  List.zipWith (fun a b => a - b) x y

/-- Modelled from the spec: `divide_by(scalar)` / `divide(scalar)`,
elementwise division by a scalar. -/
def vecDivide (x : Vec) (c : ℚ) : Vec :=
  x.map (fun t => t / c)

/-- The exact value of `numpy.finfo(float).eps`, the machine epsilon of
IEEE-754 double precision, used as the curvature threshold in
`LimitedMemoryBFGS.add_correction`. -/
def EPSf : ℚ := 1 / 2 ^ 52

/-- State of `LimitedMemoryBFGS` (src/kona/linalg/matrices/lbfgs.py):
the capacity `max_stored` (held by the quasi-Newton base class, modelled
from the spec as the history capacity), the `lambda0` scaling, the
`norm_init` fallback scale, and the four parallel history lists. -/
structure LBFGS where
  maxStored : ℕ
  lambda0 : ℚ
  normInit : ℚ
  sList : List Vec
  yList : List Vec
  sDotS : List ℚ
  sDotY : List ℚ
deriving DecidableEq, Repr

/-- A fresh `LimitedMemoryBFGS` state with empty history. -/
def lbfgsEmpty (m : ℕ) (lam ninit : ℚ) : LBFGS :=
  ⟨m, lam, ninit, [], [], [], []⟩

/-- Embedding of `LimitedMemoryBFGS.add_correction`
(src/kona/linalg/matrices/lbfgs.py, lines 28-56).  Computes the step
two-norm and the curvature; if the curvature is below machine epsilon
the pair is skipped with a diagnostic report (second component `true`)
and the state is returned unchanged.  Otherwise the pair is deep-copied
and appended, deleting index 0 of each list first when the history is at
capacity.  (Python `del lst[0]` is modelled by `List.tail`; both agree
whenever the list is nonempty, which is the case whenever the length
equals a capacity of at least one.) -/
def addCorrection (st : LBFGS) (sIn yIn : Vec) : LBFGS × Bool :=
  let twoNorm := vecInner sIn sIn
  let curvature := vecInner sIn yIn
  if curvature < EPSf then
    (st, true)
  else
    let st1 :=
      if st.sList.length = st.maxStored then
        { st with
          sList := st.sList.tail
          yList := st.yList.tail
          sDotS := st.sDotS.tail
          sDotY := st.sDotY.tail }
      else st
    ({ st1 with
        sList := st1.sList ++ [sIn]
        yList := st1.yList ++ [yIn]
        sDotS := st1.sDotS ++ [twoNorm]
        sDotY := st1.sDotY ++ [curvature] }, false)

/-- The coefficient `rho[k] = 1 / (s_dot_s_list[k]*lambda0 +
s_dot_y_list[k])` of the two-loop recursion
(src/kona/linalg/matrices/lbfgs.py, lines 67-69). -/
def lbfgsRho (st : LBFGS) (k : ℕ) : ℚ :=
  1 / (st.sDotS.getD k 0 * st.lambda0 + st.sDotY.getD k 0)

/-- Backward pass of the two-loop recursion
(src/kona/linalg/matrices/lbfgs.py, lines 72-77): iterate `k` from
`num_stored - 1` down to `0`, recording `alpha[k]` and updating the
working vector in place. -/
def lbfgsBackward (st : LBFGS) (v0 : Vec) : (ℕ → ℚ) × Vec :=
  (List.range st.sList.length).reverse.foldl
    (fun av k =>
      let a := lbfgsRho st k * vecInner (st.sList.getD k []) av.2
      let v1 :=
        if st.lambda0 > 0 then
          vecAxpby 1 av.2 (-(a * st.lambda0)) (st.sList.getD k [])
        else av.2
      let v2 := vecAxpby 1 v1 (-a) (st.yList.getD k [])
      (fun j => if j = k then a else av.1 j, v2))
    (fun _ => 0, v0)

/-- Initial scaling of the two-loop recursion
(src/kona/linalg/matrices/lbfgs.py, lines 79-90): scale by
`1/(rho[last]*yTy)` using the most recent pair, or divide by
`norm_init` when the history is empty. -/
def lbfgsScaled (st : LBFGS) (v : Vec) : Vec :=
  let n := st.sList.length
  if n > 0 then
    let k := n - 1
    let yTy0 := vecInner (st.yList.getD k []) (st.yList.getD k [])
    let yTy :=
      if st.lambda0 > 0 then
        yTy0 + 2 * st.lambda0 * st.sDotY.getD k 0 +
          st.lambda0 * st.lambda0 * st.sDotS.getD k 0
      else yTy0
    vecScale (1 / (lbfgsRho st k * yTy)) v
  else
    vecDivide v st.normInit

/-- Forward pass of the two-loop recursion
(src/kona/linalg/matrices/lbfgs.py, lines 92-96): iterate `k` from `0`
to `num_stored - 1`, computing `beta` and updating the working
vector. -/
def lbfgsForward (st : LBFGS) (alpha : ℕ → ℚ) (v0 : Vec) : Vec :=
  (List.range st.sList.length).foldl
    (fun v k =>
      let b0 := lbfgsRho st k * vecInner (st.yList.getD k []) v
      let b :=
        if st.lambda0 > 0 then
          b0 + lbfgsRho st k * st.lambda0 * vecInner (st.sList.getD k []) v
        else b0
      vecAxpby 1 v (alpha k - b) (st.sList.getD k []))
    v0

/-- Embedding of `LimitedMemoryBFGS.solve` from
src/kona/linalg/matrices/lbfgs.py (lines 58-96).  The working vector is
initialized with a copy of the input (`v_vec.equals(u_vec)`), so the
input vector is never written; the result is the final value of the
output vector. -/
def lbfgsSolve (st : LBFGS) (u : Vec) : Vec :=
  let v0 := u
  let av := lbfgsBackward st v0
  let v1 := lbfgsScaled st av.2
  lbfgsForward st av.1 v1

/-- Embedding of `LimitedMemoryBFGS.apply_inv_Hessian_approx` from
src/kona/algorithms/lbfgs.py (lines 52-91).  That body begins with the
plain Python rebinding `v_vec = u_vec`, so the working vector aliases
the input object: every in-place update lands in `u_vec`, and the
caller's output argument is never written.  The returned pair is the
final value of (`u_vec`, `v_vec`): the first slot carries the computed
action, the second is the untouched output argument. -/
def applyInvHessianApprox (st : LBFGS) (uVec vVec : Vec) : Vec × Vec :=
  let vWork := uVec
  let av := lbfgsBackward st vWork
  let vWork1 := lbfgsScaled st av.2
  let vWork2 := lbfgsForward st av.1 vWork1
  (vWork2, vVec)

/-- Whether a correction pair passes the curvature test of
`add_correction` (pairs with curvature below machine epsilon are
rejected). -/
def acceptedPair (p : Vec × Vec) : Bool :=
  !(decide (vecInner p.1 p.2 < EPSf))

/-- Folding a sequence of correction pairs into the history. -/
def foldAdd (st : LBFGS) (ps : List (Vec × Vec)) : LBFGS :=
  ps.foldl (fun s p => (addCorrection s p.1 p.2).1) st

/-- The concrete seeded history of the quasi-Newton test
(src/kona/test/test_quasi_newton.py, lines 77-128): three
orthogonal-axis correction pairs with curvatures 1, 100 and 10. -/
def lbfgsSeeded : LBFGS :=
  let st0 := lbfgsEmpty 3 0 1
  let st1 := (addCorrection st0 [-1, 0, 0] [-1, 0, 0]).1
  let st2 := (addCorrection st1 [0, -1, 0] [0, -100, 0]).1
  (addCorrection st2 [0, 0, -1] [0, 0, -10]).1

/-- C1: with `lambda0 = 0`, seeding an empty history with three
orthogonal-axis correction pairs of curvatures 1, 100 and 10 and
solving against the unit vector on each axis reproduces the
inverse-curvature scaling of that axis exactly (in the exact-arithmetic
model, which is what "exactly up to machine precision" means for the
float program). -/
theorem lbfgs_seeded_inverse_curvature :
    lbfgsSolve lbfgsSeeded [1, 0, 0] = [1, 0, 0] ∧
    lbfgsSolve lbfgsSeeded [0, 1, 0] = [0, 1/100, 0] ∧
    lbfgsSolve lbfgsSeeded [0, 0, 1] = [0, 0, 1/10] := by
  norm_num [lbfgsSolve, lbfgsSeeded, lbfgsEmpty, addCorrection, lbfgsBackward,
    lbfgsScaled, lbfgsForward, lbfgsRho, vecInner, vecScale, vecAxpby,
    vecDivide, EPSf, List.range_succ]

/-- C5 counterexample: a correction pair whose curvature is exactly
machine epsilon is at (not below) the threshold; the code's strict
comparison `curvature < eps` accepts it, so the history changes,
refuting the claim that pairs with curvature at or below machine
epsilon are skipped. -/
theorem addCorrection_at_eps_changes_history :
    vecInner [1] [EPSf] ≤ EPSf ∧
    (addCorrection (lbfgsEmpty 3 0 1) [1] [EPSf]).1.sList = [[1]] ∧
    (addCorrection (lbfgsEmpty 3 0 1) [1] [EPSf]).1 ≠ lbfgsEmpty 3 0 1 := by
  refine ⟨by norm_num [vecInner, EPSf], ?_, ?_⟩ <;>
    norm_num [addCorrection, lbfgsEmpty, vecInner, EPSf]

/-- The skip branch of `add_correction`: a curvature strictly below
machine epsilon leaves the state unchanged and reports the skip. -/
theorem addCorrection_low_curvature_eq (st : LBFGS) (s y : Vec)
    (h : vecInner s y < EPSf) :
    addCorrection st s y = (st, true) := by
  simp only [addCorrection]
  rw [if_pos h]

/-- C5 (amended): for every stored history and every correction pair
whose curvature is strictly below machine epsilon, `add_correction`
returns with the history entirely unchanged and only emits the skip
report. -/
theorem addCorrection_skips_low_curvature (st : LBFGS) (s y : Vec)
    (h : vecInner s y < EPSf) :
    addCorrection st s y = (st, true) :=
  addCorrection_low_curvature_eq st s y h

/-- Witness for `addCorrection_skips_low_curvature` at a concrete
degenerate pair. -/
theorem addCorrection_skips_low_curvature_w :
    vecInner [1] [0] < EPSf ∧
    addCorrection (lbfgsEmpty 3 0 1) [1] [0] = (lbfgsEmpty 3 0 1, true) :=
  ⟨by norm_num [vecInner, EPSf],
   addCorrection_skips_low_curvature (lbfgsEmpty 3 0 1) [1] [0]
     (by norm_num [vecInner, EPSf])⟩

/-- Characterization of the history lists after folding any sequence of
correction pairs into an empty history: the stored pairs are exactly
the accepted pairs with all but the most recent `max_stored` dropped
(FIFO eviction, oldest first). -/
theorem foldAdd_lists (m : ℕ) (hm : 1 ≤ m) (lam ninit : ℚ)
    (ps : List (Vec × Vec)) :
    (foldAdd (lbfgsEmpty m lam ninit) ps).sList =
      ((ps.filter acceptedPair).map Prod.fst).drop
        ((ps.filter acceptedPair).length - m) ∧
    (foldAdd (lbfgsEmpty m lam ninit) ps).yList =
      ((ps.filter acceptedPair).map Prod.snd).drop
        ((ps.filter acceptedPair).length - m) := by
  induction ps using List.reverseRecOn with
  | nil => simp [foldAdd, lbfgsEmpty]
  | append_singleton ps p ih =>
    have hfold : foldAdd (lbfgsEmpty m lam ninit) (ps ++ [p]) =
        (addCorrection (foldAdd (lbfgsEmpty m lam ninit) ps) p.1 p.2).1 := by
      simp [foldAdd]
    have hms : ∀ qs : List (Vec × Vec),
        (foldAdd (lbfgsEmpty m lam ninit) qs).maxStored = m := by
      intro qs
      induction qs using List.reverseRecOn with
      | nil => simp [foldAdd, lbfgsEmpty]
      | append_singleton qs q ihq =>
        simp only [foldAdd, List.foldl_append, List.foldl_cons,
          List.foldl_nil] at ihq ⊢
        simp only [addCorrection]
        split
        · simpa using ihq
        · split <;> simpa using ihq
    by_cases hacc : acceptedPair p = true
    · have hnotlt : ¬ vecInner p.1 p.2 < EPSf := by
        simpa [acceptedPair] using hacc
      have hfilter : (ps ++ [p]).filter acceptedPair =
          ps.filter acceptedPair ++ [p] := by
        simp [List.filter_append, hacc]
      have hlen : (foldAdd (lbfgsEmpty m lam ninit) ps).sList.length =
          (ps.filter acceptedPair).length -
            ((ps.filter acceptedPair).length - m) := by
        rw [ih.1]; simp
      rcases Nat.lt_or_ge (ps.filter acceptedPair).length m with hcase | hcase
      · -- history not yet at capacity: plain append
        have hne : ¬ (foldAdd (lbfgsEmpty m lam ninit) ps).sList.length =
            (foldAdd (lbfgsEmpty m lam ninit) ps).maxStored := by
          rw [hlen, hms ps]; omega
        have h0 : (ps.filter acceptedPair).length - m = 0 := by omega
        have h1 : (ps.filter acceptedPair).length + 1 - m = 0 := by omega
        refine ⟨?_, ?_⟩
        · rw [hfold, hfilter]
          simp only [addCorrection, if_neg hnotlt, if_neg hne]
          rw [ih.1]
          simp only [List.map_append, List.length_append, List.length_map,
            List.length_cons, List.length_nil, List.map_cons, List.map_nil]
          rw [h0]
          simp only [Nat.zero_add, List.drop_zero]
          rw [show (ps.filter acceptedPair).length + 1 - m = 0 from h1]
          simp
        · rw [hfold, hfilter]
          simp only [addCorrection, if_neg hnotlt, if_neg hne]
          rw [ih.2]
          simp only [List.map_append, List.length_append, List.length_map,
            List.length_cons, List.length_nil, List.map_cons, List.map_nil]
          rw [h0]
          simp only [Nat.zero_add, List.drop_zero]
          rw [show (ps.filter acceptedPair).length + 1 - m = 0 from h1]
          simp
      · -- history at capacity: evict oldest, then append
        have heq : (foldAdd (lbfgsEmpty m lam ninit) ps).sList.length =
            (foldAdd (lbfgsEmpty m lam ninit) ps).maxStored := by
          rw [hlen, hms ps]; omega
        have h2 : (ps.filter acceptedPair).length - m + 1 =
            (ps.filter acceptedPair).length + 1 - m := by omega
        have h3 : (ps.filter acceptedPair).length + 1 - m ≤
            (ps.filter acceptedPair).length := by omega
        refine ⟨?_, ?_⟩
        · rw [hfold, hfilter]
          simp only [addCorrection, if_neg hnotlt, if_pos heq]
          rw [ih.1]
          simp only [List.map_append, List.tail_drop, List.length_append,
            List.length_map, List.length_cons, List.length_nil,
            List.map_cons, List.map_nil]
          rw [h2, List.drop_append_of_le_length (by simpa using h3)]
        · rw [hfold, hfilter]
          simp only [addCorrection, if_neg hnotlt, if_pos heq]
          rw [ih.2]
          simp only [List.map_append, List.tail_drop, List.length_append,
            List.length_map, List.length_cons, List.length_nil,
            List.map_cons, List.map_nil]
          rw [h2, List.drop_append_of_le_length (by simpa using h3)]
    · have hlt : vecInner p.1 p.2 < EPSf := by
        by_contra hc
        exact hacc (by simp [acceptedPair, hc])
      have hfilter : (ps ++ [p]).filter acceptedPair = ps.filter acceptedPair := by
        simp [List.filter_append, hacc]
      rw [hfold, addCorrection_low_curvature_eq _ _ _ hlt, hfilter]
      exact ih

/-- C6: after any sequence of `add_correction` calls (starting from an
empty history with capacity at least one) the history holds at most
`max_stored` pairs; and when `max_stored + 1` accepted corrections are
added, exactly `max_stored` remain and the stored pairs are the input
sequence with its first (oldest) element evicted, so the first stored
pair is the second one inserted. -/
theorem lbfgs_history_fifo (m : ℕ) (lam ninit : ℚ)
    (ps : List (Vec × Vec)) (hm : 1 ≤ m) :
    (foldAdd (lbfgsEmpty m lam ninit) ps).sList.length ≤ m ∧
    (ps.length = m + 1 → (∀ p ∈ ps, acceptedPair p = true) →
      (foldAdd (lbfgsEmpty m lam ninit) ps).sList = (ps.map Prod.fst).drop 1 ∧
      (foldAdd (lbfgsEmpty m lam ninit) ps).yList = (ps.map Prod.snd).drop 1) := by
  obtain ⟨hs, hy⟩ := foldAdd_lists m hm lam ninit ps
  constructor
  · rw [hs]; simp; omega
  · intro hlen hall
    have hfil : ps.filter acceptedPair = ps := List.filter_eq_self.mpr hall
    rw [hs, hy, hfil, hlen]
    have : m + 1 - m = 1 := by omega
    rw [this]
    exact ⟨rfl, rfl⟩

/-- Witness for `lbfgs_history_fifo`: capacity 1, two accepted
corrections; one pair remains and it is the second inserted. -/
theorem lbfgs_history_fifo_w :
    (foldAdd (lbfgsEmpty 1 0 1) [([1], [1]), ([2], [2])]).sList.length ≤ 1 ∧
    (foldAdd (lbfgsEmpty 1 0 1) [([1], [1]), ([2], [2])]).sList = [[2]] ∧
    (foldAdd (lbfgsEmpty 1 0 1) [([1], [1]), ([2], [2])]).yList = [[2]] := by
  have h := lbfgs_history_fifo 1 0 1 [([1], [1]), ([2], [2])] (by norm_num)
  refine ⟨h.1, ?_⟩
  have h2 := h.2 (by norm_num)
    (by
      intro p hp
      simp only [List.mem_cons, List.mem_singleton, List.not_mem_nil,
        or_false] at hp
      rcases hp with rfl | rfl <;>
        norm_num [acceptedPair, vecInner, EPSf])
  simpa using h2

/-- C7: with an empty history both recursion loops are vacuous, so
`solve(u, v)` sets `v` to `u` divided by the `norm_init` fallback
scale, for every input vector and every `lambda0`. -/
theorem lbfgsSolve_empty_history (m : ℕ) (lam ninit : ℚ) (u : Vec)
    (h : ninit ≠ 0) :
    lbfgsSolve ⟨m, lam, ninit, [], [], [], []⟩ u = vecDivide u ninit := by
  simp [lbfgsSolve, lbfgsBackward, lbfgsScaled, lbfgsForward]

/-- Witness for `lbfgsSolve_empty_history` at a concrete input. -/
theorem lbfgsSolve_empty_history_w :
    (2 : ℚ) ≠ 0 ∧
    lbfgsSolve ⟨5, 0, 2, [], [], [], []⟩ [4, 6] = vecDivide [4, 6] 2 :=
  ⟨by norm_num, lbfgsSolve_empty_history 5 0 2 [4, 6] (by norm_num)⟩

/-- C10 counterexample: on an empty history with `norm_init = 2`,
`apply_inv_Hessian_approx` (algorithms variant) called with `u = [4]`,
`v = [7]` leaves the result `[2]` in the input vector `u` and never
writes the output argument `v`, while the matrices variant computes the
same value `[2]` into the output; so the two implementations are not
equivalent as mutating procedures and the input `u` is modified. -/
theorem applyInvHessian_mutates_input :
    applyInvHessianApprox (lbfgsEmpty 3 0 2) [4] [7] = ([2], [7]) ∧
    lbfgsSolve (lbfgsEmpty 3 0 2) [4] = [2] ∧
    (applyInvHessianApprox (lbfgsEmpty 3 0 2) [4] [7]).1 ≠ [4] ∧
    (applyInvHessianApprox (lbfgsEmpty 3 0 2) [4] [7]).2 ≠
      lbfgsSolve (lbfgsEmpty 3 0 2) [4] := by
  refine ⟨?_, ?_, ?_, ?_⟩ <;>
    norm_num [applyInvHessianApprox, lbfgsSolve, lbfgsEmpty, lbfgsBackward,
      lbfgsScaled, lbfgsForward, vecDivide]

/-- C10 (amended): for every identical stored history and inputs, the
two-loop recursions of the two `LimitedMemoryBFGS` implementations
compute the same inverse-Hessian action value; but the algorithms
variant returns it in the `u` slot (its working vector aliases the
input object) and leaves the output argument untouched, whereas the
matrices variant writes it to the output vector. -/
theorem applyInvHessian_value_eq_solve (st : LBFGS) (u v : Vec) :
    applyInvHessianApprox st u v = (lbfgsSolve st u, v) := rfl

/-! ## Composite vectors and the reduced KKT operator -/

/-- The concrete composite-vector classes of the repository:
`ReducedKKTVector` (src/kona/linalg/vectors/composite.py) and its
sibling classes `CompositePrimalVector` and `CompositeDualVector`
(referenced by the FGMRES solver; modelled from the spec, they are not
under the sources).  For instances of these sibling classes,
`isinstance(vec, type(self))` holds exactly when the dynamic classes
coincide. -/
inductive CKind where
  | reducedKKT
  | compositePrimal
  | compositeDual
deriving DecidableEq, Repr

/-- A composite vector value: the dynamic class tag plus the optional
primal, state and dual components
(src/kona/linalg/vectors/composite.py, `CompositeVector.__init__`). -/
structure CVec where
  kind : CKind
  primal : Option Vec
  state : Option Vec
  dual : Option Vec
deriving DecidableEq, Repr

/-- A `ReducedKKTVector`: primal and dual components, no state
component (src/kona/linalg/vectors/composite.py, ReducedKKTVector). -/
def mkReducedKKT (p d : Vec) : CVec :=
  ⟨CKind.reducedKKT, some p, none, some d⟩

/-- Exceptions of the embedded composite / KKT operations. -/
inductive KErr where
  | typeErr
  | nameErrorRelTol
deriving DecidableEq, Repr

/-- Componentwise application of a binary vector operation to the
optional components of two composite vectors (each operation applies
only where the receiver has the component). -/
def compOp (f : Vec → Vec → Vec) (a b : Option Vec) : Option Vec :=
  match a, b with
  | some x, some y => some (f x y)
  | _, _ => none

/-- Componentwise inner product contribution of an optional component
pair (zero where the component is absent). -/
def compInner (a b : Option Vec) : ℚ :=
  match a, b with
  | some x, some y => vecInner x y
  | _, _ => 0

/-- Embedding of `CompositeVector.equals` with a vector argument
(src/kona/linalg/vectors/composite.py, lines 52-79): `_check_type`
raises `TypeError` unless the argument has the receiver's composite
type; otherwise each present component is assigned. -/
def cvEquals (self rhs : CVec) : Except KErr CVec :=
  if rhs.kind = self.kind then
    .ok ⟨self.kind,
      compOp (fun _ y => y) self.primal rhs.primal,
      compOp (fun _ y => y) self.state rhs.state,
      compOp (fun _ y => y) self.dual rhs.dual⟩
  else .error KErr.typeErr

/-- Embedding of `CompositeVector.plus`
(src/kona/linalg/vectors/composite.py, lines 81-99). -/
def cvPlus (self v : CVec) : Except KErr CVec :=
  if v.kind = self.kind then
    .ok ⟨self.kind, compOp vecPlus self.primal v.primal,
      compOp vecPlus self.state v.state, compOp vecPlus self.dual v.dual⟩
  else .error KErr.typeErr

/-- Embedding of `CompositeVector.minus`
(src/kona/linalg/vectors/composite.py, lines 101-119). -/
def cvMinus (self v : CVec) : Except KErr CVec :=
  if v.kind = self.kind then
    .ok ⟨self.kind, compOp vecMinus self.primal v.primal,
      compOp vecMinus self.state v.state, compOp vecMinus self.dual v.dual⟩
  else .error KErr.typeErr

/-- Embedding of `CompositeVector.equals_ax_p_by`
(src/kona/linalg/vectors/composite.py, lines 156-175): both vector
operands are type checked, in order, before the componentwise update. -/
def cvAxpby (self : CVec) (a : ℚ) (x : CVec) (b : ℚ) (y : CVec) :
    Except KErr CVec :=
  if x.kind = self.kind then
    if y.kind = self.kind then
      .ok ⟨self.kind, compOp (vecAxpby a · b ·) x.primal y.primal,
        compOp (vecAxpby a · b ·) x.state y.state,
        compOp (vecAxpby a · b ·) x.dual y.dual⟩
    else .error KErr.typeErr
  else .error KErr.typeErr

/-- Embedding of `CompositeVector.inner`
(src/kona/linalg/vectors/composite.py, lines 177-193). -/
def cvInner (self v : CVec) : Except KErr ℚ :=
  if v.kind = self.kind then
    .ok (compInner self.primal v.primal + compInner self.state v.state +
      compInner self.dual v.dual)
  else .error KErr.typeErr

/-- Modelled from the spec: `calc_epsilon` of
`kona.linalg.solvers.util` is not under the sources.  The spec requires
the finite-difference step to be a function of the norm at the
evaluation point, the perturbation norm and machine epsilon, scaling
correctly as the perturbation norm goes to zero. -/
def calcEpsilon (sqrtF : ℚ → ℚ) (evalAtNorm multByNorm : ℚ) : ℚ :=
  if multByNorm < EPSf then 1
  else if evalAtNorm < EPSf then sqrtF EPSf
  else sqrtF EPSf * evalAtNorm / multByNorm

/-- The linearization state of `ReducedKKTMatrix` consumed by
`product`, together with the external collaborators reached before the
failure point: the float square root (norms) and the transposed
constraint-residual Jacobian product of the user PDE model (both
external to the repository, hence parameters of the embedding). -/
structure KKTLin where
  sqrtF : ℚ → ℚ
  primalNorm : ℚ
  dRdXTprod : Vec → Vec

/-- Embedding of `ReducedKKTMatrix.product`
(src/kona/linalg/matrices/hessian/kkt.py, lines 135-229).  The two
`isinstance` type checks run first, before any computation, so on a
type mismatch the error is raised with `out_vec` untouched.  Otherwise
the finite-difference step is computed from the stored design norm and
the perturbation norm, and the right-hand side of the first
state-space solve is assembled; the call
`self._linear_solve(self.state_work[0], self.w_adj, rel_tol=rel_tol)`
then evaluates the name `rel_tol`, whose only assignments in the body
(the tolerance calculations) are commented out in the source, so the
call raises `NameError` before any inner linear solve is performed and
before anything is written to `out_vec`.  The second component of the
result is the final value of `out_vec`. -/
def kktProduct (ctx : KKTLin) (inVec outVec : CVec) :
    Except KErr CVec × CVec :=
  if inVec.kind ≠ CKind.reducedKKT then (.error KErr.typeErr, outVec)
  else if outVec.kind ≠ CKind.reducedKKT then (.error KErr.typeErr, outVec)
  else
    let inPrimal := inVec.primal.getD []
    let _epsilonFd := calcEpsilon ctx.sqrtF ctx.primalNorm
      (ctx.sqrtF (vecInner inPrimal inPrimal))
    let _stateWork0 := vecScale (-1) (ctx.dRdXTprod inPrimal)
    (.error KErr.nameErrorRelTol, outVec)

/-- C3: for every linearized `ReducedKKTMatrix` state and every pair of
KKT-space vectors, `product` raises `NameError` at the first inner
solve call site — the `rel_tol` tolerance calculation it needs is
commented out in the source — so the second-order-adjoint pipeline is
never completed: no inner linear solve runs and `out_vec` is never
written. -/
theorem kktProduct_raises_nameError (ctx : KKTLin) (inVec outVec : CVec)
    (h1 : inVec.kind = CKind.reducedKKT)
    (h2 : outVec.kind = CKind.reducedKKT) :
    kktProduct ctx inVec outVec = (.error KErr.nameErrorRelTol, outVec) := by
  simp [kktProduct, h1, h2]

/-- Witness for `kktProduct_raises_nameError` at a concrete linearized
state and concrete KKT vectors. -/
theorem kktProduct_raises_nameError_w :
    (mkReducedKKT [1] [1]).kind = CKind.reducedKKT ∧
    kktProduct ⟨id, 1, id⟩ (mkReducedKKT [1] [1]) (mkReducedKKT [0] [0]) =
      (.error KErr.nameErrorRelTol, mkReducedKKT [0] [0]) :=
  ⟨rfl, kktProduct_raises_nameError ⟨id, 1, id⟩ (mkReducedKKT [1] [1])
    (mkReducedKKT [0] [0]) rfl rfl⟩

/-- C9: the KKT operator's `product` raises a type error, with
`out_vec` untouched and no computation performed, whenever either
argument is not a `ReducedKKTVector`; and every composite-vector
operation with a vector operand (`equals`, `plus`, `minus`,
`equals_ax_p_by`, `inner`) raises a type error when an operand has a
mismatched composite type, never silently coercing. -/
theorem composite_type_mismatch_raises :
    (∀ v w : CVec, w.kind ≠ v.kind →
      cvEquals v w = .error KErr.typeErr ∧
      cvPlus v w = .error KErr.typeErr ∧
      cvMinus v w = .error KErr.typeErr ∧
      cvInner v w = .error KErr.typeErr) ∧
    (∀ (a b : ℚ) (v x y : CVec), x.kind ≠ v.kind ∨ y.kind ≠ v.kind →
      cvAxpby v a x b y = .error KErr.typeErr) ∧
    (∀ (ctx : KKTLin) (iv ov : CVec),
      iv.kind ≠ CKind.reducedKKT ∨ ov.kind ≠ CKind.reducedKKT →
      kktProduct ctx iv ov = (.error KErr.typeErr, ov)) := by
  refine ⟨?_, ?_, ?_⟩
  · intro v w h
    exact ⟨by simp [cvEquals, h], by simp [cvPlus, h],
      by simp [cvMinus, h], by simp [cvInner, h]⟩
  · intro a b v x y h
    rcases h with h | h
    · simp [cvAxpby, h]
    · by_cases hx : x.kind = v.kind <;> simp [cvAxpby, hx, h]
  · intro ctx iv ov h
    rcases h with h | h
    · simp [kktProduct, h]
    · by_cases hi : iv.kind = CKind.reducedKKT <;>
        simp [kktProduct, hi, h]

/-- Witness for `composite_type_mismatch_raises`: a KKT vector against
a composite-primal vector, for each operation and for `product`. -/
theorem composite_type_mismatch_raises_w :
    (CVec.kind ⟨CKind.compositePrimal, some [1], none, none⟩ ≠
      (mkReducedKKT [1] [2]).kind) ∧
    cvPlus (mkReducedKKT [1] [2]) ⟨CKind.compositePrimal, some [1], none, none⟩ =
      .error KErr.typeErr ∧
    cvAxpby (mkReducedKKT [1] [2]) 1 ⟨CKind.compositePrimal, some [1], none, none⟩
      1 (mkReducedKKT [1] [2]) = .error KErr.typeErr ∧
    kktProduct ⟨id, 1, id⟩ ⟨CKind.compositePrimal, some [1], none, none⟩
      (mkReducedKKT [0] [0]) =
      (.error KErr.typeErr, mkReducedKKT [0] [0]) := by
  have hk : CVec.kind ⟨CKind.compositePrimal, some [1], none, none⟩ ≠
      (mkReducedKKT [1] [2]).kind := by simp [mkReducedKKT]
  refine ⟨hk, ?_, ?_, ?_⟩
  · exact ((composite_type_mismatch_raises.1 (mkReducedKKT [1] [2])
      ⟨CKind.compositePrimal, some [1], none, none⟩ hk).2).1
  · exact composite_type_mismatch_raises.2.1 1 1 (mkReducedKKT [1] [2])
      ⟨CKind.compositePrimal, some [1], none, none⟩ (mkReducedKKT [1] [2])
      (Or.inl hk)
  · exact composite_type_mismatch_raises.2.2 ⟨id, 1, id⟩
      ⟨CKind.compositePrimal, some [1], none, none⟩ (mkReducedKKT [0] [0])
      (Or.inl (by simp))

/-! ## FGMRES -/

/-- Diagnostic lines written to the output file by the solver. -/
inductive Diag where
  | solvedByInitialGuess
  | header
  | history (iter : ℕ) (res : ℚ)
  | smallLSgrad
  | finalRes (ratio : ℚ)
  | warnResMismatch (diff : ℚ)
deriving DecidableEq, Repr

/-- Configuration and collaborators of one FGMRES solve
(src/kona/linalg/solvers/krylov/fgmres.py).  The iteration cap and the
`check_res` flag live on the `KrylovSolver` base class, which is not
under the sources; they are modelled from the spec as configuration.
`eps` is machine epsilon, `gsTol` the near-zero breakdown threshold of
the modified Gram-Schmidt routine (`kona.linalg.solvers.util`, modelled
from the spec), `sqrtF` the external float square root used by `norm2`,
`matVec` the operator and `precond` the preconditioner (both external
callables applied as pure maps). -/
structure FCtx where
  maxIter : ℕ
  relTol : ℚ
  absTol : ℚ
  checkRes : Bool
  checkLSgrad : Bool
  eps : ℚ
  gsTol : ℚ
  sqrtF : ℚ → ℚ
  matVec : Vec → Vec
  precond : Vec → Vec

/-- Modelled from the spec: `norm2` is the square root of the inner
product of a vector with itself. -/
def vecNorm (sqrtF : ℚ → ℚ) (v : Vec) : ℚ := sqrtF (vecInner v v)

/-- Pointwise update of a one-index array (numpy arrays are modelled as
functions out of the index type). -/
def upd1 (f : ℕ → ℚ) (i : ℕ) (x : ℚ) : ℕ → ℚ :=
  fun j => if j = i then x else f j

/-- Pointwise update of a two-index array. -/
def upd2 (H : ℕ → ℕ → ℚ) (i j : ℕ) (x : ℚ) : ℕ → ℕ → ℚ :=
  fun a b => if a = i ∧ b = j then x else H a b

/-- Modelled from the spec: `mod_GS_normalize` of
`kona.linalg.solvers.util` is not under the sources.  The new Krylov
vector `W[i+1]` is orthogonalized against all previous basis vectors by
modified Gram-Schmidt, filling column `i` of the Hessenberg matrix; the
post-orthogonalization norm becomes `H[i+1, i]`.  A near-zero norm (at
most `gsTol`) signals invariant-subspace exhaustion: the routine raises
`LinAlgError` (third component `true`) and the vector is left
unnormalized; otherwise the vector is normalized. -/
def modGS (ctx : FCtx) (i : ℕ) (H : ℕ → ℕ → ℚ) (W : List Vec) :
    (ℕ → ℕ → ℚ) × List Vec × Bool :=
  let hw := (List.range (i + 1)).foldl
    (fun hw k =>
      let prod := vecInner hw.2 (W.getD k [])
      (upd2 hw.1 k i prod, vecAxpby 1 hw.2 (-prod) (W.getD k [])))
    (H, W.getD (i + 1) [])
  let nrm := vecNorm ctx.sqrtF hw.2
  let H1 := upd2 hw.1 (i + 1) i nrm
  if nrm ≤ ctx.gsTol then (H1, W.set (i + 1) hw.2, true)
  else (H1, W.set (i + 1) (vecDivide hw.2 nrm), false)

/-- Modelled from the spec: `generate_givens` returns the rotated pair
(the subdiagonal entry is zeroed) together with the rotation
coefficients `sn`, `cn`; the degenerate all-zero input yields the
identity rotation. -/
def generateGivens (sqrtF : ℚ → ℚ) (dx dy : ℚ) : ℚ × ℚ × ℚ × ℚ :=
  if dx = 0 ∧ dy = 0 then (0, 0, 0, 1)
  else
    let r := sqrtF (dx * dx + dy * dy)
    (r, 0, dy / r, dx / r)

/-- Modelled from the spec: `apply_givens` applies a plane rotation to
a pair of entries. -/
def applyGivens (s c h1 h2 : ℚ) : ℚ × ℚ :=
  (c * h1 + s * h2, -s * h1 + c * h2)

/-- Modelled from the spec: `solve_tri` performs back substitution on
the leading `n x n` upper-triangular block. -/
def solveTri (H : ℕ → ℕ → ℚ) (g : ℕ → ℚ) (n : ℕ) : ℕ → ℚ :=
  (List.range n).reverse.foldl
    (fun y k =>
      let s := ((List.range n).filter (fun j => k < j)).foldl
        (fun acc j => acc + H k j * y j) 0
      upd1 y k ((g k - s) / H k k))
    (fun _ => 0)

/-- The mutable workspace of one FGMRES solve
(src/kona/linalg/solvers/krylov/fgmres.py, lines 56-67): Arnoldi
vectors `W`, preconditioned vectors `Z`, Hessenberg matrix `H`, rotated
right-hand side `g`, saved diagonal `y`, Givens coefficients `sn`,
`cn`, the current residual estimate `beta`, the iteration counter, the
linear-dependence flag and the diagnostic output. -/
structure FState where
  W : List Vec
  Z : List Vec
  H : ℕ → ℕ → ℚ
  g : ℕ → ℚ
  yArr : ℕ → ℚ
  sn : ℕ → ℚ
  cn : ℕ → ℚ
  beta : ℚ
  iters : ℕ
  linDepend : Bool
  log : List Diag

/-- The fatal error of `FGMRES.solve`: the `RuntimeError` raised on
Arnoldi breakdown, carrying the iteration index, the printed
Hessenberg entry `H[i+1, i]` and the residual estimate. -/
inductive FErr where
  | breakdown (i : ℕ) (hval : ℚ) (beta : ℚ)
deriving DecidableEq, Repr

/-- One pass of the Arnoldi loop body of `FGMRES.solve`
(src/kona/linalg/solvers/krylov/fgmres.py, lines 108-150), entered
after the convergence and breakdown checks.  Returns the updated state
and whether the least-squares-gradient check broke out of the loop. -/
def fgmresBody (ctx : FCtx) (i : ℕ) (s : FState) : FState × Bool :=
  let iters1 := s.iters + 1
  let Z1 := s.Z ++ [ctx.precond (s.W.getD i [])]
  let W1 := s.W ++ [ctx.matVec (Z1.getD i [])]
  let gs := modGS ctx i s.H W1
  let lin1 := s.linDepend || gs.2.2
  let H2 := (List.range i).foldl
    (fun H k =>
      let p := applyGivens (s.sn k) (s.cn k) (H k i) (H (k + 1) i)
      upd2 (upd2 H k i p.1) (k + 1) i p.2)
    gs.1
  let gg := generateGivens ctx.sqrtF (H2 i i) (H2 (i + 1) i)
  let H3 := upd2 (upd2 H2 i i gg.1) (i + 1) i gg.2.1
  let sn1 := upd1 s.sn i gg.2.2.1
  let cn1 := upd1 s.cn i gg.2.2.2
  let y1 := upd1 s.yArr i (s.g i)
  let gp := applyGivens gg.2.2.1 gg.2.2.2 (s.g i) (s.g (i + 1))
  let g1 := upd1 (upd1 s.g i gp.1) (i + 1) gp.2
  let sCont : FState :=
    ⟨gs.2.1, Z1, H3, g1, y1, sn1, cn1, s.beta, iters1, lin1, s.log⟩
  if ctx.checkLSgrad ∧ iters1 > 1 then
    let y2 := fun k => if k < i then 0 else y1 k
    let y3 := (List.range i).reverse.foldl
      (fun y k =>
        let p := applyGivens (-(sn1 k)) (cn1 k) (y k) (y (k + 1))
        upd1 (upd1 y k p.1) (k + 1) p.2)
      y2
    let rLS := fun r =>
      (List.range (i + 1)).foldl (fun acc c => acc + H3 r c * y3 c) 0
    let rnorm := ctx.sqrtF
      ((List.range (i + 1)).foldl (fun acc r => acc + rLS r * rLS r) 0)
    if rnorm < 1000 * ctx.eps then
      ({ sCont with
          yArr := y3
          log := s.log ++ [Diag.smallLSgrad] }, true)
    else
      let beta1 := |g1 (i + 1)|
      ({ sCont with
          yArr := y3
          beta := beta1
          log := s.log ++ [Diag.history (i + 1) beta1] }, false)
  else
    let beta1 := |g1 (i + 1)|
    ({ sCont with
        beta := beta1
        log := s.log ++ [Diag.history (i + 1) beta1] }, false)

/-- The Arnoldi loop of `FGMRES.solve`
(src/kona/linalg/solvers/krylov/fgmres.py, lines 96-150): at the top of
each pass, raise the breakdown `RuntimeError` when the
linear-dependence flag is set and the residual estimate still exceeds
`rel_tol * norm0` (the absolute tolerance is not consulted here);
otherwise break on convergence; otherwise run the body.  On natural
exhaustion of `xrange(max_iter)` the Python loop variable retains its
last value `max_iter - 1`, which the fuel-zero case reproduces (the
loop is entered with `fuel = max_iter` at `i = 0`). -/
def fgmresLoop (ctx : FCtx) (norm0 : ℚ) :
    ℕ → ℕ → FState → Except FErr (ℕ × FState)
  | 0, i, s => .ok (i - 1, s)
  | fuel + 1, i, s =>
    if s.linDepend ∧ s.beta > ctx.relTol * norm0 then
      .error (FErr.breakdown i (s.H (i + 1) i) s.beta)
    else if s.beta < ctx.relTol * norm0 ∨ s.beta < ctx.absTol then
      .ok (i, s)
    else
      let bs := fgmresBody ctx i s
      if bs.2 then .ok (i, bs.1)
      else fgmresLoop ctx norm0 fuel (i + 1) bs.1

/-- The epilogue of `FGMRES.solve`
(src/kona/linalg/solvers/krylov/fgmres.py, lines 152-175): solve the
triangular least-squares system, assemble the solution into `x`, and,
when `check_res` is enabled, recompute the true residual
`b - matVec(x)` explicitly, report it, warn when it disagrees with the
Givens estimate by more than `0.01 * rel_tol * norm0`, and return the
true residual norm instead of the estimate.  This stage never raises:
disagreement is a diagnostic only. -/
def fgmresFinalize (ctx : FCtx) (b x : Vec) (norm0 : ℚ) (i : ℕ)
    (s : FState) : ℕ × ℚ × Vec × List Diag :=
  let yv := solveTri s.H s.g i
  let x1 := (List.range i).foldl
    (fun xv k => vecAxpby 1 xv (yv k) (s.Z.getD k [])) x
  if ctx.checkRes then
    let r := vecAxpby 1 b (-1) (ctx.matVec x1)
    let trueRes := vecNorm ctx.sqrtF r
    let log1 := s.log ++ [Diag.finalRes (trueRes / norm0)]
    let log2 :=
      if |trueRes - s.beta| > 1/100 * ctx.relTol * norm0 then
        log1 ++ [Diag.warnResMismatch ((trueRes - s.beta) / norm0)]
      else log1
    (s.iters, trueRes, x1, log2)
  else
    (s.iters, s.beta, x1, s.log)

/-- Embedding of `FGMRES.solve`
(src/kona/linalg/solvers/krylov/fgmres.py, lines 53-175): compute the
initial residual `b - matVec(x)` and its norm; if it already meets the
tolerance, return zero iterations with `x` unchanged; otherwise
normalize it as the first Arnoldi vector, run the loop, and finalize.
The result carries (iterations, returned residual norm, solution,
diagnostic output). -/
def fgmresSolve (ctx : FCtx) (b x : Vec) :
    Except FErr (ℕ × ℚ × Vec × List Diag) :=
  let norm0 := vecNorm ctx.sqrtF b
  let w0 := vecPlus (vecScale (-1) (ctx.matVec x)) b
  let beta := vecNorm ctx.sqrtF w0
  if beta ≤ ctx.relTol * norm0 ∨ beta < ctx.absTol then
    .ok (0, beta, x, [Diag.solvedByInitialGuess])
  else
    let s0 : FState :=
      ⟨[vecDivide w0 beta], [], fun _ _ => 0, upd1 (fun _ => 0) 0 beta,
        fun _ => 0, fun _ => 0, fun _ => 0, beta, 0, false,
        [Diag.header, Diag.history 0 beta]⟩
    (fgmresLoop ctx norm0 ctx.maxIter 0 s0).map
      (fun r => fgmresFinalize ctx b x norm0 r.1 r.2)

/-- C2: whenever the initial residual norm already satisfies the
tolerance (at most `rel_tol * norm(b)` or strictly below `abs_tol`),
`FGMRES.solve` returns immediately with zero iterations and that
residual norm, leaving `x` unchanged and running no Arnoldi
iteration (the only diagnostic is the initial-guess message). -/
theorem fgmres_initial_guess_converged (ctx : FCtx) (b x : Vec)
    (h : vecNorm ctx.sqrtF (vecPlus (vecScale (-1) (ctx.matVec x)) b) ≤
          ctx.relTol * vecNorm ctx.sqrtF b ∨
         vecNorm ctx.sqrtF (vecPlus (vecScale (-1) (ctx.matVec x)) b) <
          ctx.absTol) :
    fgmresSolve ctx b x =
      .ok (0, vecNorm ctx.sqrtF (vecPlus (vecScale (-1) (ctx.matVec x)) b),
        x, [Diag.solvedByInitialGuess]) := by
  simp only [fgmresSolve]
  rw [if_pos h]

/-- Witness for `fgmres_initial_guess_converged`: identity operator,
`b = x = [1]`, so the initial residual is zero. -/
theorem fgmres_initial_guess_converged_w :
    (vecNorm id (vecPlus (vecScale (-1) (id [1])) [1]) ≤
        (1/1000 : ℚ) * vecNorm id [1] ∨
      vecNorm id (vecPlus (vecScale (-1) (id [1])) [1]) < (1/10^12 : ℚ)) ∧
    fgmresSolve ⟨10, 1/1000, 1/10^12, false, false, EPSf, 0, id, id, id⟩
        [1] [1] =
      .ok (0, vecNorm id (vecPlus (vecScale (-1) (id [1])) [1]), [1],
        [Diag.solvedByInitialGuess]) := by
  have h : vecNorm id (vecPlus (vecScale (-1) (id [1])) [1]) ≤
      (1/1000 : ℚ) * vecNorm id [1] ∨
      vecNorm id (vecPlus (vecScale (-1) (id [1])) [1]) < (1/10^12 : ℚ) := by
    left
    norm_num [vecNorm, vecInner, vecPlus, vecScale]
  exact ⟨h, fgmres_initial_guess_converged
    ⟨10, 1/1000, 1/10^12, false, false, EPSf, 0, id, id, id⟩ [1] [1] h⟩

/-- C4 (amended): in the Arnoldi loop, breakdown is fatal precisely
when the residual estimate still exceeds `rel_tol * norm0`: every
breakdown error carries a residual estimate above `rel_tol * norm0`
(the absolute tolerance is not consulted by the breakdown check), and
when the linear-dependence flag is set with the estimate below
`rel_tol * norm0`, the loop returns normally at once, after which
`fgmresSolve` still assembles and returns the solution via
`fgmresFinalize`. -/
theorem fgmres_breakdown_fatal_iff_relTol :
    (∀ (ctx : FCtx) (norm0 : ℚ) (fuel i : ℕ) (s : FState) (j : ℕ)
        (hv be : ℚ),
      fgmresLoop ctx norm0 fuel i s = .error (FErr.breakdown j hv be) →
      ctx.relTol * norm0 < be) ∧
    (∀ (ctx : FCtx) (norm0 : ℚ) (fuel i : ℕ) (s : FState),
      s.linDepend = true → s.beta < ctx.relTol * norm0 →
      fgmresLoop ctx norm0 (fuel + 1) i s = .ok (i, s)) := by
  constructor
  · intro ctx norm0 fuel
    induction fuel with
    | zero =>
      intro i s j hv be h
      simp [fgmresLoop] at h
    | succ n ih =>
      intro i s j hv be h
      simp only [fgmresLoop] at h
      split at h
      · rename_i hcond
        simp only [Except.error.injEq, FErr.breakdown.injEq] at h
        obtain ⟨-, -, hbe⟩ := h
        exact hbe ▸ hcond.2
      · rename_i hcond
        split at h
        · exact absurd h (by simp)
        · split at h
          · exact absurd h (by simp)
          · exact ih (i + 1) _ j hv be h
  · intro ctx norm0 fuel i s hld hlt
    have h1 : ¬(s.linDepend ∧ s.beta > ctx.relTol * norm0) := by
      rintro ⟨-, hgt⟩
      exact absurd hlt (not_lt.mpr (le_of_lt hgt))
    rw [fgmresLoop, if_neg h1, if_pos (Or.inl hlt)]

/-- A loop state with the linear-dependence flag set and a residual
estimate of 1, used to exercise the breakdown branch. -/
def fgmresStateBd : FState :=
  ⟨[], [], fun _ _ => 0, fun _ => 0, fun _ => 0, fun _ => 0, fun _ => 0,
    1, 0, true, []⟩

/-- A loop state with the linear-dependence flag set and a residual
estimate of 0, used to exercise the converged-breakdown branch. -/
def fgmresStateCv : FState :=
  ⟨[], [], fun _ _ => 0, fun _ => 0, fun _ => 0, fun _ => 0, fun _ => 0,
    0, 0, true, []⟩

/-- Witness for `fgmres_breakdown_fatal_iff_relTol`: both parts applied
at concrete loop states. -/
theorem fgmres_breakdown_fatal_iff_relTol_w :
    ((1/2 : ℚ) * 0 < 1) ∧
    fgmresLoop ⟨1, 1/2, 0, false, false, EPSf, 0, id, id, id⟩ 1 1 0
      fgmresStateCv = .ok (0, fgmresStateCv) := by
  constructor
  · exact fgmres_breakdown_fatal_iff_relTol.1
      ⟨1, 1/2, 0, false, false, EPSf, 0, id, id, id⟩ 0 1 0 fgmresStateBd
      0 0 1
      (by norm_num [fgmresLoop, fgmresStateBd])
  · exact fgmres_breakdown_fatal_iff_relTol.2
      ⟨1, 1/2, 0, false, false, EPSf, 0, id, id, id⟩ 1 0 0 fgmresStateCv
      rfl (by norm_num [fgmresStateCv])

/-- The external float square root of the breakdown counterexample run,
given at the four (perfect-square) arguments arising in the run; at
each of them the value is the exact nonnegative square root. -/
def cexSqrt : ℚ → ℚ := fun q =>
  if q = 25 then 5
  else if q = 16 then 4
  else if q = 9/1000000 then 3/1000
  else if q = 25/1000000 then 1/200
  else 0

/-- The values returned by `cexSqrt` in the counterexample run are the
genuine square roots of their arguments. -/
theorem cexSqrt_genuine :
    cexSqrt 25 * cexSqrt 25 = 25 ∧ 0 ≤ cexSqrt 25 ∧
    cexSqrt 16 * cexSqrt 16 = 16 ∧ 0 ≤ cexSqrt 16 ∧
    cexSqrt (9/1000000) * cexSqrt (9/1000000) = 9/1000000 ∧
    0 ≤ cexSqrt (9/1000000) ∧
    cexSqrt (25/1000000) * cexSqrt (25/1000000) = 25/1000000 ∧
    0 ≤ cexSqrt (25/1000000) := by
  norm_num [cexSqrt]

/-- The operator of the breakdown counterexample run, given on the
three vectors it is applied to. -/
def cexMatVec : Vec → Vec := fun v =>
  if v = [0, 0, 0] then [0, 0, 0]
  else if v = [1, 0, 0] then [3, 4, 0]
  else if v = [0, 1, 0] then [0, 1/150, 3/1000]
  else [0, 0, 0]

/-- Configuration of the breakdown counterexample run: three
iterations allowed, `rel_tol = 1/1000`, `abs_tol = 3`, identity
preconditioner. -/
def cexCtx : FCtx :=
  ⟨3, 1/1000, 3, false, false, EPSf, 1/100, cexSqrt, cexMatVec, id⟩

/-- C4 counterexample: a solve in which Gram-Schmidt breaks down at
iteration 1 while the Givens residual estimate drops to 12/5, which is
strictly below `abs_tol = 3` (converged in the claim's sense) yet above
`rel_tol * norm(b) = 1/200`; at the top of iteration 2 the code raises
the breakdown `RuntimeError` anyway, refuting the claim that breakdown
is fatal only when the residual is neither within `rel_tol * norm(b)`
nor below `abs_tol`. -/
theorem fgmres_breakdown_raised_despite_absTol :
    fgmresSolve cexCtx [5, 0, 0] [0, 0, 0] =
      .error (FErr.breakdown 2 0 (12/5)) ∧
    (12/5 : ℚ) < cexCtx.absTol ∧
    cexCtx.relTol * vecNorm cexCtx.sqrtF [5, 0, 0] < 12/5 := by
  refine ⟨?_, by norm_num [cexCtx], by norm_num [cexCtx, cexSqrt, vecNorm, vecInner]⟩
  norm_num [fgmresSolve, fgmresLoop, fgmresBody, modGS, generateGivens,
    applyGivens, vecNorm, vecInner, vecPlus, vecScale, vecAxpby, vecDivide,
    upd1, upd2, cexCtx, cexSqrt, cexMatVec, EPSf, List.range_succ,
    abs_of_pos, abs_of_nonneg, Except.map]

/-- C8: with `check_res` enabled, the epilogue of `FGMRES.solve`
recomputes the true residual `b - matVec(x)` of the assembled solution,
returns its norm (not the Givens estimate) as the second component,
and appends the mismatch warning diagnostic exactly when the true
residual norm and the estimate disagree by more than
`0.01 * rel_tol * norm0`; it never raises, and the assembled solution
is returned either way. -/
theorem fgmres_checkRes_reports_true_residual (ctx : FCtx) (b x : Vec)
    (norm0 : ℚ) (i : ℕ) (s : FState) (h : ctx.checkRes = true) :
    fgmresFinalize ctx b x norm0 i s =
      (let x1 := (List.range i).foldl
        (fun xv k => vecAxpby 1 xv (solveTri s.H s.g i k) (s.Z.getD k [])) x
      let trueRes := vecNorm ctx.sqrtF (vecAxpby 1 b (-1) (ctx.matVec x1))
      (s.iters, trueRes, x1,
        (s.log ++ [Diag.finalRes (trueRes / norm0)]) ++
          (if |trueRes - s.beta| > 1/100 * ctx.relTol * norm0 then
            [Diag.warnResMismatch ((trueRes - s.beta) / norm0)]
          else []))) := by
  simp only [fgmresFinalize, h, if_true]
  split_ifs <;> simp

/-- A loop state with empty workspace, residual estimate 1 and
iteration count 5, used to exercise the `check_res` epilogue. -/
def fgmresStateFn : FState :=
  ⟨[], [], fun _ _ => 0, fun _ => 0, fun _ => 0, fun _ => 0, fun _ => 0,
    1, 5, false, []⟩

/-- Witness for `fgmres_checkRes_reports_true_residual` at a concrete
finalization: the true residual is returned and no warning is emitted
since it agrees with the estimate. -/
theorem fgmres_checkRes_reports_true_residual_w :
    FCtx.checkRes ⟨1, 1, 1, true, false, EPSf, 0, id, id, id⟩ = true ∧
    fgmresFinalize ⟨1, 1, 1, true, false, EPSf, 0, id, id, id⟩ [1] [0] 1 0
      fgmresStateFn = (5, 1, [0], [Diag.finalRes 1]) := by
  refine ⟨rfl, ?_⟩
  have h := fgmres_checkRes_reports_true_residual
    ⟨1, 1, 1, true, false, EPSf, 0, id, id, id⟩ [1] [0] 1 0 fgmresStateFn rfl
  rw [h]
  norm_num [fgmresStateFn, vecNorm, vecInner, vecAxpby, solveTri]

end KonaSpec
